import Mathlib

/-!
# Verification of the AirBnB_clone_v3 storage layer and API views

Shallow embedding of the storage abstraction (file engine, relational
engine) and of the Flask views (`places_amenities.py`, `users.py`,
`places.py`, `models/city.py`) of the repository, together with proofs of
the behavioural claims made by its specification.

Entities follow the data model of spec §3: six record types sharing an
`id`, with the foreign keys the cascade chain State→City→Place→Review and
the Place–Amenity association need.  Two entities are equal iff they have
the same type and the same id (spec §4.1).
-/

namespace HBnB

/-- The six entity types of the data model (spec §3). -/
inductive EntityType where
  | state
  | city
  | user
  | amenity
  | place
  | review
deriving DecidableEq, Repr

/-- An entity record.  Each constructor carries the fields of the
corresponding type that the storage layer and the views inspect: the id,
the foreign keys (`state_id` on City, `city_id`/`user_id` on Place,
`place_id`/`user_id` on Review) and the list of linked amenity ids carried
on a Place in file-storage mode (spec §4.2). -/
inductive Entity where
  | state (eid name : String)
  | city (eid name stateId : String)
  | user (eid email password : String)
  | amenity (eid name : String)
  | place (eid name cityId userId : String) (amenityIds : List String)
  | review (eid text placeId userId : String)
deriving DecidableEq, Repr

namespace Entity

/-- The type discriminator of an entity. -/
def etype : Entity → EntityType
  | .state _ _ => .state
  | .city _ _ _ => .city
  | .user _ _ _ => .user
  | .amenity _ _ => .amenity
  | .place _ _ _ _ _ => .place
  | .review _ _ _ _ => .review

/-- The `id` attribute, shared by every entity. -/
def eid : Entity → String
  | .state i _ => i
  | .city i _ _ => i
  | .user i _ _ => i
  | .amenity i _ => i
  | .place i _ _ _ _ => i
  | .review i _ _ _ => i

/-- The `state_id` foreign key (meaningful on City only). -/
def stateId : Entity → String
  | .city _ _ s => s
  | _ => ""

/-- The `city_id` foreign key (meaningful on Place only). -/
def cityId : Entity → String
  | .place _ _ c _ _ => c
  | _ => ""

/-- The `place_id` foreign key (meaningful on Review only). -/
def placeId : Entity → String
  | .review _ _ p _ => p
  | _ => ""

/-- The list of linked amenity ids carried on a Place (file mode). -/
def amenityIds : Entity → List String
  | .place _ _ _ _ a => a
  | _ => []

end Entity

/-- Entity equality of spec §4.1: "two entities are equal iff same type
and id". -/
def sameEntity (a b : Entity) : Bool :=
  a.etype == b.etype && a.eid == b.eid

/-- Printable name of an entity type, as used in composite keys. -/
def typeName : EntityType → String
  | .state => "State"
  | .city => "City"
  | .user => "User"
  | .amenity => "Amenity"
  | .place => "Place"
  | .review => "Review"

/-- The composite key `"<TypeName>.<id>"` of the spec's glossary. -/
def compositeKey (e : Entity) : String :=
  typeName e.etype ++ "." ++ e.eid

/-- The `(type, id)` pair identifying an entity. -/
def entityKey (e : Entity) : EntityType × String :=
  (e.etype, e.eid)

/-- A store is well formed when no two rows share a type and an id. -/
def rowsWF (rows : List Entity) : Prop :=
  (rows.map entityKey).Nodup

theorem sameEntity_iff (a b : Entity) :
    sameEntity a b = true ↔ a.etype = b.etype ∧ a.eid = b.eid := by
  simp [sameEntity]

theorem etypeBeq_false {u v : EntityType} (h : u ≠ v) : (u == v) = false := by
  cases hq : (u == v) with
  | false => rfl
  | true => exact absurd (beq_iff_eq.mp hq) h

/-- A count splits along any second predicate. -/
theorem countP_split {α : Type} (l : List α) (p q : α → Bool) :
    l.countP p
      = (l.countP fun a => p a && q a) + (l.countP fun a => p a && !q a) := by
  induction l with
  | nil => simp
  | cons x xs ih =>
    by_cases hp : p x = true <;> by_cases hq : q x = true <;>
      simp [List.countP_cons, hp, hq, ih] <;> omega

/-- In a well-formed store a persisted entity matches exactly one row. -/
theorem countP_sameEntity_eq_one (l : List Entity) (D : Entity)
    (hnd : rowsWF l) (hmem : ∃ x ∈ l, sameEntity x D = true) :
    (l.countP fun e => sameEntity D e) = 1 := by
  induction l with
  | nil => simp at hmem
  | cons x xs ih =>
    rw [rowsWF, List.map_cons, List.nodup_cons] at hnd
    rcases hmem with ⟨y, hy, hsame0⟩
    have hsame := (sameEntity_iff y D).mp hsame0
    rcases List.mem_cons.mp hy with rfl | hyxs
    · have hx : sameEntity D y = true := by
        rw [sameEntity_iff]; exact ⟨hsame.1.symm, hsame.2.symm⟩
      have hzero : (xs.countP fun e => sameEntity D e) = 0 := by
        rw [List.countP_eq_zero]
        intro z hz hsz
        apply absurd _ hnd.1
        have hkey : entityKey y = entityKey z := by
          have hsz' := (sameEntity_iff D z).mp hsz
          simp only [entityKey]
          rw [hsame.1, hsame.2, hsz'.1, hsz'.2]
        exact hkey ▸ List.mem_map_of_mem entityKey hz
      simp [List.countP_cons, hx, hzero]
    · have hx : sameEntity D x = false := by
        by_contra hcon
        rw [Bool.not_eq_false, sameEntity_iff] at hcon
        apply absurd _ hnd.1
        have hkey : entityKey x = entityKey y := by
          simp only [entityKey]
          rw [hsame.1, hsame.2, hcon.1, hcon.2]
        exact hkey ▸ List.mem_map_of_mem entityKey hyxs
      simp [List.countP_cons, hx, ih hnd.2 ⟨y, hyxs, hsame0⟩]

theorem sameEntity_comm (a b : Entity) : sameEntity a b = sameEntity b a := by
  cases hab : sameEntity a b with
  | true =>
    have h := (sameEntity_iff a b).mp hab
    exact ((sameEntity_iff b a).mpr ⟨h.1.symm, h.2.symm⟩).symm
  | false =>
    cases hba : sameEntity b a with
    | false => rfl
    | true =>
      have h := (sameEntity_iff b a).mp hba
      rw [(sameEntity_iff a b).mpr ⟨h.1.symm, h.2.symm⟩] at hab
      exact hab.symm

/-- A count of a pointwise disjunction of disjoint predicates adds. -/
theorem countP_or_split {α : Type} (l : List α) (q r : α → Bool)
    (hdisj : ∀ a ∈ l, q a = true → r a = false) :
    (l.countP fun a => q a || r a) = l.countP q + l.countP r := by
  induction l with
  | nil => simp
  | cons x xs ih =>
    have ih' := ih (fun a ha => hdisj a (List.mem_cons_of_mem x ha))
    cases hq : q x with
    | false =>
      cases hr : r x
      · simp [List.countP_cons, hq, hr, ih']
      · simp [List.countP_cons, hq, hr, ih']
        omega
    | true =>
      have hr := hdisj x (List.mem_cons_self x xs) hq
      simp only [List.countP_cons, hq, hr, Bool.true_or]
      simp [ih']
      omega

/-- Counting the elements whose key lies in a duplicate-free id list equals
the sum, over the ids, of the counts at each id. -/
theorem countP_contains_eq_sum (P : List Entity) (p : Entity → Bool)
    (f : Entity → String) (ids : List String) (hnd : ids.Nodup) :
    (P.countP fun e => p e && ids.contains (f e))
      = (ids.map fun x => P.countP fun e => p e && (f e == x)).sum := by
  induction ids with
  | nil => simp
  | cons c cs ih =>
    rw [List.nodup_cons] at hnd
    have hcong : ∀ e ∈ P, (p e && (c :: cs).contains (f e))
        = ((p e && (f e == c)) || (p e && cs.contains (f e))) := by
      intro e _
      show (p e && (f e == c || cs.contains (f e))) = _
      cases hp : p e <;> cases hfc : (f e == c) <;> simp [hp, hfc]
    calc (P.countP fun e => p e && (c :: cs).contains (f e))
        = (P.countP fun e =>
            (p e && (f e == c)) || (p e && cs.contains (f e))) :=
          List.countP_congr (fun e he => by rw [hcong e he])
      _ = (P.countP fun e => p e && (f e == c))
            + (P.countP fun e => p e && cs.contains (f e)) := by
          apply countP_or_split
          intro a _ hq
          have hq' : p a = true ∧ (f a == c) = true := by simpa using hq
          have hcf : cs.contains (f a) = false := by
            cases hcc : cs.contains (f a) with
            | false => rfl
            | true =>
              exact absurd (beq_iff_eq.mp hq'.2 ▸ List.elem_iff.mp hcc) hnd.1
          rw [hcf, Bool.and_false]
      _ = ((c :: cs).map fun x =>
            P.countP fun e => p e && (f e == x)).sum := by
          rw [List.map_cons, List.sum_cons, ih hnd.2]

/-- The sum of a constant list. -/
theorem sum_of_const (l : List Nat) (M : Nat) (h : ∀ y ∈ l, y = M) :
    l.sum = l.length * M := by
  induction l with
  | nil => simp
  | cons x xs ih =>
    rw [List.sum_cons, List.length_cons,
      ih (fun y hy => h y (List.mem_cons_of_mem x hy)),
      h x (List.mem_cons_self x xs)]
    ring

/-- Within one entity type, well-formedness makes plain ids distinct. -/
theorem nodup_eid_of_uniform_type (l : List Entity) (t : EntityType)
    (ht : ∀ e ∈ l, e.etype = t) (h : (l.map entityKey).Nodup) :
    (l.map Entity.eid).Nodup := by
  induction l with
  | nil => simp
  | cons x xs ih =>
    rw [List.map_cons, List.nodup_cons] at h ⊢
    refine ⟨?_, ih (fun e he => ht e (List.mem_cons_of_mem x he)) h.2⟩
    intro hmem
    rcases List.mem_map.mp hmem with ⟨y, hy, hee⟩
    apply h.1
    have hkey : entityKey x = entityKey y := by
      simp only [entityKey]
      rw [ht x (List.mem_cons_self x xs), ht y (List.mem_cons_of_mem x hy),
        hee]
    exact hkey ▸ List.mem_map_of_mem entityKey hy

/-- Filtering preserves well-formedness of the key projection. -/
theorem nodup_key_filter (rows : List Entity) (p : Entity → Bool)
    (h : rowsWF rows) : ((rows.filter p).map entityKey).Nodup :=
  List.Sublist.nodup (List.Sublist.map entityKey (List.filter_sublist rows)) h

/-- Entity `x` is a direct cascade child of `D` in the declared relationship
graph State→City→Place→Review (spec §3, "Ownership"). -/
def childOf (D x : Entity) : Prop :=
  (D.etype = .state ∧ x.etype = .city ∧ x.stateId = D.eid) ∨
  (D.etype = .city ∧ x.etype = .place ∧ x.cityId = D.eid) ∨
  (D.etype = .place ∧ x.etype = .review ∧ x.placeId = D.eid)

instance (D x : Entity) : Decidable (childOf D x) := by
  unfold childOf
  infer_instance

/-- Modelled from the spec: the relational storage engine of §4.3
(`models/engine/db_storage.py`, not present under `src/`).  Its state is
the set of committed rows plus the active session's pending insertions
and pending deletions: `new` stages an entity for insertion, `delete`
marks a persisted or staged entity for removal, `save` commits the
session, with the cascade State→City→Place→Review enforced at the schema
level. -/
structure DBStorage where
  rows : List Entity
  stagedNew : List Entity
  stagedDel : List Entity
deriving DecidableEq, Repr

namespace DBStorage

/-- Whether `e` is one of the entities marked for deletion. -/
def directlyDel (dels : List Entity) (e : Entity) : Bool :=
  dels.any (fun d => sameEntity d e)

/-- Modelled from the spec: `new(entity)` "stages an entity for insertion
in the active session" (§4.3). -/
def new (s : DBStorage) (e : Entity) : DBStorage :=
  { s with stagedNew := s.stagedNew ++ [e] }

/-- Modelled from the spec: `delete(entity)` "marks for removal and relies
on the declared cascade; attempting to delete an entity that was never
staged/persisted is an error" (§4.3, `NotFoundError` of §6).  The second
component reports whether the call failed; on failure the state is
returned unchanged (the raised error leaves the session as it was). -/
def delete (s : DBStorage) (e : Entity) : DBStorage × Bool :=
  if (s.rows ++ s.stagedNew).any (fun x => sameEntity x e) then
    ({ s with stagedDel := s.stagedDel ++ [e] }, false)
  else
    (s, true)

/-- Ids of the States being removed by the commit. -/
def deadStateIds (rows dels : List Entity) : List String :=
  (rows.filter (fun e => e.etype == .state && directlyDel dels e)).map Entity.eid

/-- A City is removed when marked directly or when its State is removed
(`ondelete="CASCADE"` on `cities.state_id`, `models/city.py`). -/
def cityDead (rows dels : List Entity) (e : Entity) : Bool :=
  e.etype == .city &&
    (directlyDel dels e || (deadStateIds rows dels).contains e.stateId)

/-- Ids of the Cities being removed by the commit. -/
def deadCityIds (rows dels : List Entity) : List String :=
  (rows.filter (cityDead rows dels)).map Entity.eid

/-- A Place is removed when marked directly or when its City is removed
(`cascade="all, delete-orphan"` on `City.places`, `models/city.py`). -/
def placeDead (rows dels : List Entity) (e : Entity) : Bool :=
  e.etype == .place &&
    (directlyDel dels e || (deadCityIds rows dels).contains e.cityId)

/-- Ids of the Places being removed by the commit. -/
def deadPlaceIds (rows dels : List Entity) : List String :=
  (rows.filter (placeDead rows dels)).map Entity.eid

/-- A Review is removed when marked directly or when its Place is removed. -/
def reviewDead (rows dels : List Entity) (e : Entity) : Bool :=
  e.etype == .review &&
    (directlyDel dels e || (deadPlaceIds rows dels).contains e.placeId)

/-- Whether the commit removes `e`: marked directly, or reached by the
schema-level cascade State→City→Place→Review. -/
def dead (rows dels : List Entity) (e : Entity) : Bool :=
  directlyDel dels e || cityDead rows dels e || placeDead rows dels e ||
    reviewDead rows dels e

/-- Modelled from the spec: `save()` "commits the session (flush +
commit), making cascade deletes declared at the schema level
(State→City→Place→Review) automatically enforced by the backing engine"
(§4.3).  Staged insertions become rows; every row marked for deletion is
removed together with the Cities of removed States, the Places of removed
Cities and the Reviews of removed Places. -/
def save (s : DBStorage) : DBStorage :=
  let all := s.rows ++ s.stagedNew
  ⟨all.filter (fun e => !dead all s.stagedDel e), [], []⟩

/-- Modelled from the spec: `get(type, id)` "returns the entity with that
type and id, or none" (§4.2/§6; same external contract in §4.3). -/
def get (s : DBStorage) (t : EntityType) (i : String) : Option Entity :=
  s.rows.find? (fun e => e.etype == t && e.eid == i)

/-- Modelled from the spec: `all(type?)` returns "every entity, or every
entity of the given type, as a mapping" keyed by composite key (§4.2/§6). -/
def allOf (s : DBStorage) (t : Option EntityType) : List (String × Entity) :=
  (s.rows.filter (fun e => match t with
    | none => true
    | some t => e.etype == t)).map (fun e => (compositeKey e, e))

/-- Modelled from the spec: `count(type?)` "returns size of the above"
(§4.2/§6). -/
def count (s : DBStorage) (t : EntityType) : Nat :=
  s.rows.countP (fun e => e.etype == t)

/-- With no pending deletions, committing the session merely moves the
staged insertions into the rows: the cascade filter removes nothing. -/
theorem save_rows_of_no_staged_del (s : DBStorage) (h : s.stagedDel = []) :
    (DBStorage.save s).rows = s.rows ++ s.stagedNew := by
  simp [DBStorage.save, DBStorage.dead, DBStorage.cityDead, DBStorage.placeDead,
    DBStorage.reviewDead, DBStorage.deadStateIds, DBStorage.deadCityIds,
    DBStorage.deadPlaceIds, DBStorage.directlyDel, h]

theorem directlyDel_singleton (D e : Entity) :
    directlyDel [D] e = sameEntity D e := by
  simp [directlyDel]

/-- Membership in an id projection of a filtered row list. -/
theorem mem_map_eid_filter (rows : List Entity) (p : Entity → Bool)
    (x : String) :
    x ∈ (rows.filter p).map Entity.eid ↔
      ∃ r ∈ rows, p r = true ∧ r.eid = x := by
  simp only [List.mem_map, List.mem_filter]
  constructor
  · rintro ⟨r, ⟨hr, hp⟩, he⟩
    exact ⟨r, hr, hp, he⟩
  · rintro ⟨r, hr, hp, he⟩
    exact ⟨r, ⟨hr, hp⟩, he⟩

theorem contains_eq_false_iff (l : List String) (a : String) :
    l.contains a = false ↔ a ∉ l := by
  rw [← Bool.not_eq_true, not_iff_not]
  exact List.elem_iff

/-- When nothing in the store is a cascade child of `D`, committing the
deletion of `D` removes only the rows equal to `D`. -/
theorem dead_eq_sameEntity_of_no_children (rows : List Entity) (D : Entity)
    (hno : ∀ x ∈ rows, ¬ childOf D x) :
    ∀ e ∈ rows, dead rows [D] e = sameEntity D e := by
  have hstate : ∀ e ∈ rows, e.etype = .city →
      e.stateId ∉ deadStateIds rows [D] := by
    intro e he hc hmem
    rw [deadStateIds, mem_map_eid_filter] at hmem
    rcases hmem with ⟨r, _, hpred, heid⟩
    simp only [directlyDel_singleton, Bool.and_eq_true, beq_iff_eq] at hpred
    rcases hpred with ⟨hrst, hsame⟩
    rw [sameEntity_iff] at hsame
    exact hno e he (Or.inl ⟨hsame.1.trans hrst, hc, by rw [← heid, ← hsame.2]⟩)
  have hcityfilter : rows.filter (cityDead rows [D])
      = rows.filter (fun e => e.etype == .city && sameEntity D e) := by
    apply List.filter_congr
    intro e he
    unfold cityDead
    rw [directlyDel_singleton]
    by_cases h : e.etype = .city
    · simp [h, hstate e he h]
    · have hb : (e.etype == EntityType.city) = false := by simpa using h
      rw [hb, Bool.false_and, Bool.false_and]
  have hplacec : ∀ e ∈ rows, e.etype = .place →
      e.cityId ∉ deadCityIds rows [D] := by
    intro e he hc hmem
    rw [deadCityIds, hcityfilter, mem_map_eid_filter] at hmem
    rcases hmem with ⟨r, _, hpred, heid⟩
    simp only [Bool.and_eq_true, beq_iff_eq] at hpred
    rcases hpred with ⟨hrc, hsame⟩
    rw [sameEntity_iff] at hsame
    exact hno e he (Or.inr (Or.inl
      ⟨hsame.1.trans hrc, hc, by rw [← heid, ← hsame.2]⟩))
  have hplacefilter : rows.filter (placeDead rows [D])
      = rows.filter (fun e => e.etype == .place && sameEntity D e) := by
    apply List.filter_congr
    intro e he
    unfold placeDead
    rw [directlyDel_singleton]
    by_cases h : e.etype = .place
    · simp [h, hplacec e he h]
    · have hb : (e.etype == EntityType.place) = false := by simpa using h
      rw [hb, Bool.false_and, Bool.false_and]
  have hreviewc : ∀ e ∈ rows, e.etype = .review →
      e.placeId ∉ deadPlaceIds rows [D] := by
    intro e he hc hmem
    rw [deadPlaceIds, hplacefilter, mem_map_eid_filter] at hmem
    rcases hmem with ⟨r, _, hpred, heid⟩
    simp only [Bool.and_eq_true, beq_iff_eq] at hpred
    rcases hpred with ⟨hrp, hsame⟩
    rw [sameEntity_iff] at hsame
    exact hno e he (Or.inr (Or.inr
      ⟨hsame.1.trans hrp, hc, by rw [← heid, ← hsame.2]⟩))
  intro e he
  cases hse : sameEntity D e with
  | true =>
    simp [dead, directlyDel_singleton, hse]
  | false =>
    have hc : cityDead rows [D] e = false := by
      unfold cityDead
      rw [directlyDel_singleton, hse]
      by_cases h : e.etype = .city
      · simp [h, hstate e he h]
      · simp [h]
    have hp : placeDead rows [D] e = false := by
      unfold placeDead
      rw [directlyDel_singleton, hse]
      by_cases h : e.etype = .place
      · simp [h, hplacec e he h]
      · simp [h]
    have hr : reviewDead rows [D] e = false := by
      unfold reviewDead
      rw [directlyDel_singleton, hse]
      by_cases h : e.etype = .review
      · simp [h, hreviewc e he h]
      · simp [h]
    simp [dead, directlyDel_singleton, hse, hc, hp, hr]

/-- Committing the deletion of a childless entity filters out exactly the
rows equal to it. -/
theorem save_rows_delete_no_children (rows : List Entity) (D : Entity)
    (hno : ∀ x ∈ rows, ¬ childOf D x) :
    (save ⟨rows, [], [D]⟩).rows
      = rows.filter (fun e => !sameEntity D e) := by
  show (rows ++ []).filter _ = _
  rw [List.append_nil]
  apply List.filter_congr
  intro e he
  rw [dead_eq_sameEntity_of_no_children rows D hno e he]

/-- Calling `delete` on a persisted entity only marks it for removal. -/
theorem delete_fst_of_persisted (rows : List Entity) (D : Entity)
    (hpers : ∃ x ∈ rows, sameEntity x D = true) :
    (DBStorage.delete ⟨rows, [], []⟩ D).1 = ⟨rows, [], [D]⟩ := by
  unfold DBStorage.delete
  rw [if_pos]
  · rfl
  · rcases hpers with ⟨x, hx, hsx⟩
    rw [List.any_eq_true]
    exact ⟨x, by simpa using hx, hsx⟩

section DeleteState

variable (rows : List Entity) (st : Entity)

/-- When the one marked entity is a persisted State, the removed state ids
are exactly its id. -/
theorem mem_deadStateIds_of_state (hst : st.etype = .state)
    (hpers : ∃ x ∈ rows, sameEntity x st = true) :
    ∀ x, x ∈ deadStateIds rows [st] ↔ x = st.eid := by
  intro x
  rw [deadStateIds, mem_map_eid_filter]
  constructor
  · rintro ⟨r, _, hp, he⟩
    simp only [directlyDel_singleton, Bool.and_eq_true] at hp
    rw [← he, ← ((sameEntity_iff st r).mp hp.2).2]
  · rintro rfl
    rcases hpers with ⟨r, hr, hsr⟩
    have h1 := (sameEntity_iff r st).mp hsr
    refine ⟨r, hr, ?_, h1.2⟩
    simp only [directlyDel_singleton, Bool.and_eq_true, beq_iff_eq]
    exact ⟨h1.1.trans hst, (sameEntity_iff st r).mpr ⟨h1.1.symm, h1.2.symm⟩⟩

/-- Under deletion of a persisted State, a City dies iff it belongs to it. -/
theorem cityDead_of_del_state (hst : st.etype = .state)
    (hpers : ∃ x ∈ rows, sameEntity x st = true) :
    ∀ e, cityDead rows [st] e
      = (e.etype == .city && e.stateId == st.eid) := by
  intro e
  unfold cityDead
  rw [directlyDel_singleton]
  cases hc : (e.etype == EntityType.city) with
  | false => rw [Bool.false_and, Bool.false_and]
  | true =>
    rw [Bool.true_and, Bool.true_and]
    have hse : sameEntity st e = false := by
      cases hq : sameEntity st e with
      | false => rfl
      | true =>
        have hte := ((sameEntity_iff st e).mp hq).1
        have he := beq_iff_eq.mp hc
        rw [← hte, hst] at he
        exact absurd he (by decide)
    rw [hse, Bool.false_or]
    cases hm : (e.stateId == st.eid) with
    | true =>
      have := (mem_deadStateIds_of_state rows st hst hpers e.stateId).mpr
        (beq_iff_eq.mp hm)
      exact List.elem_iff.mpr this
    | false =>
      cases hcc : (deadStateIds rows [st]).contains e.stateId with
      | false => rfl
      | true =>
        have := (mem_deadStateIds_of_state rows st hst hpers e.stateId).mp
          (List.elem_iff.mp hcc)
        rw [this] at hm
        simp at hm

/-- The ids of the cascade-removed Cities. -/
theorem deadCityIds_of_del_state (hst : st.etype = .state)
    (hpers : ∃ x ∈ rows, sameEntity x st = true) :
    deadCityIds rows [st]
      = (rows.filter
          (fun e => e.etype == .city && e.stateId == st.eid)).map Entity.eid := by
  unfold deadCityIds
  rw [List.filter_congr
    (fun e _ => cityDead_of_del_state rows st hst hpers e)]

/-- Under deletion of a State, a Place dies iff its City dies. -/
theorem placeDead_of_del_state (hst : st.etype = .state) :
    ∀ e, placeDead rows [st] e
      = (e.etype == .place && (deadCityIds rows [st]).contains e.cityId) := by
  intro e
  unfold placeDead
  rw [directlyDel_singleton]
  cases hc : (e.etype == EntityType.place) with
  | false => rw [Bool.false_and, Bool.false_and]
  | true =>
    rw [Bool.true_and, Bool.true_and]
    have hse : sameEntity st e = false := by
      cases hq : sameEntity st e with
      | false => rfl
      | true =>
        have hte := ((sameEntity_iff st e).mp hq).1
        have he := beq_iff_eq.mp hc
        rw [← hte, hst] at he
        exact absurd he (by decide)
    rw [hse, Bool.false_or]

/-- Under deletion of a State, a Review dies iff its Place dies. -/
theorem reviewDead_of_del_state (hst : st.etype = .state) :
    ∀ e, reviewDead rows [st] e
      = (e.etype == .review && (deadPlaceIds rows [st]).contains e.placeId) := by
  intro e
  unfold reviewDead
  rw [directlyDel_singleton]
  cases hc : (e.etype == EntityType.review) with
  | false => rw [Bool.false_and, Bool.false_and]
  | true =>
    rw [Bool.true_and, Bool.true_and]
    have hse : sameEntity st e = false := by
      cases hq : sameEntity st e with
      | false => rfl
      | true =>
        have hte := ((sameEntity_iff st e).mp hq).1
        have he := beq_iff_eq.mp hc
        rw [← hte, hst] at he
        exact absurd he (by decide)
    rw [hse, Bool.false_or]

end DeleteState

end DBStorage

/-- C2: in relational mode, `delete(e)` on an entity that was never staged
via `new` nor persisted fails (the `NotFoundError` of the spec's taxonomy,
`sqlalchemy.exc.InvalidRequestError` in the test) and leaves the stored
state unchanged. -/
theorem delete_never_staged_fails (s : DBStorage) (e : Entity)
    (h : ∀ x ∈ s.rows ++ s.stagedNew, sameEntity x e = false) :
    DBStorage.delete s e = (s, true) := by
  unfold DBStorage.delete
  rw [if_neg]
  simp only [List.any_eq_true, not_exists]
  rintro x ⟨hx, hsame⟩
  simp [h x hx] at hsame

/-- Witness for C2 at a concrete transient entity and empty store. -/
theorem delete_never_staged_fails_witness :
    DBStorage.delete ⟨[], [], []⟩ (Entity.state "s1" "California") =
      (⟨[], [], []⟩, true) :=
  delete_never_staged_fails _ _ (by decide)

/-- C3: after `new(E); save()`, `get(type(E), E.id)` returns an entity
equal to `E` (same type and id); and for every id not present for a type,
`get` returns none. -/
theorem get_after_new_save (s : DBStorage) (E : Entity)
    (hq : s.stagedDel = []) :
    (∃ e, DBStorage.get (DBStorage.save (DBStorage.new s E)) E.etype E.eid
        = some e ∧ sameEntity e E = true) ∧
    ∀ t i, (∀ e ∈ (DBStorage.save (DBStorage.new s E)).rows,
        ¬(e.etype = t ∧ e.eid = i)) →
      DBStorage.get (DBStorage.save (DBStorage.new s E)) t i = none := by
  have hrows : (DBStorage.save (DBStorage.new s E)).rows
      = s.rows ++ (s.stagedNew ++ [E]) :=
    DBStorage.save_rows_of_no_staged_del _ hq
  constructor
  · have hmem : E ∈ (DBStorage.save (DBStorage.new s E)).rows := by
      rw [hrows]; simp
    have hsome : ((DBStorage.save (DBStorage.new s E)).rows.find?
        (fun e => e.etype == E.etype && e.eid == E.eid)).isSome := by
      rw [List.find?_isSome]
      exact ⟨E, hmem, by simp⟩
    rcases Option.isSome_iff_exists.mp hsome with ⟨e, he⟩
    refine ⟨e, he, ?_⟩
    have := List.find?_some he
    simp only [Bool.and_eq_true, beq_iff_eq] at this
    simp [sameEntity, this.1, this.2]
  · intro t i habs
    apply List.find?_eq_none.mpr
    intro e he
    simp only [Bool.and_eq_true, beq_iff_eq]
    rintro ⟨h1, h2⟩
    exact habs e he ⟨h1, h2⟩

/-- Witness for C3: one user persisted into an empty store, retrieved by
type and id; a missing id yields none. -/
theorem get_after_new_save_witness :
    (∃ e, DBStorage.get
        (DBStorage.save (DBStorage.new ⟨[], [], []⟩ (Entity.user "u1" "a@b.c" "pw")))
        EntityType.user "u1" = some e ∧
        sameEntity e (Entity.user "u1" "a@b.c" "pw") = true) ∧
    DBStorage.get
        (DBStorage.save (DBStorage.new ⟨[], [], []⟩ (Entity.user "u1" "a@b.c" "pw")))
        EntityType.state "missing" = none :=
  ⟨(get_after_new_save ⟨[], [], []⟩ (Entity.user "u1" "a@b.c" "pw") rfl).1,
   (get_after_new_save ⟨[], [], []⟩ (Entity.user "u1" "a@b.c" "pw") rfl).2
     EntityType.state "missing" (by decide)⟩

/-- C4 counterexample: in the relational engine the claimed frame
condition fails.  Store: one State `s1` and one City `c1` owned by it.
After `delete(state); save()` the cascade also removes the City, so
`count(City)` is not unchanged although City is not the deleted entity's
type. -/
theorem count_frame_violated_by_cascade :
    ¬ (DBStorage.count
        (DBStorage.save
          (DBStorage.delete
            ⟨[Entity.state "s1" "California", Entity.city "c1" "SF" "s1"],
              [], []⟩
            (Entity.state "s1" "California")).1)
        EntityType.city
      = DBStorage.count
        ⟨[Entity.state "s1" "California", Entity.city "c1" "SF" "s1"],
          [], []⟩
        EntityType.city) := by
  decide

/-- C4 (amended): starting from a quiescent well-formed store, for an
entity `E` not already present, `count(type(E))` increases by exactly 1
after `new(E); save()` with the counts of all other types unchanged; for a
persisted entity `D`, `count(type(D))` decreases by exactly 1 after
`delete(D); save()`, and the counts of all other types are unchanged
provided no stored entity is a cascade child of `D` (otherwise the
cascaded descendants are removed as well, as shown by the
counterexample). -/
theorem count_after_new_save_and_delete_save (s : DBStorage) (E D : Entity)
    (hWF : rowsWF s.rows) (hnew : s.stagedNew = []) (hdel : s.stagedDel = [])
    (hEfresh : ∀ x ∈ s.rows, sameEntity x E = false)
    (hDpers : ∃ x ∈ s.rows, sameEntity x D = true)
    (hDnochild : ∀ x ∈ s.rows, ¬ childOf D x) :
    (DBStorage.count (DBStorage.save (DBStorage.new s E)) E.etype
        = DBStorage.count s E.etype + 1) ∧
    (∀ t, t ≠ E.etype →
      DBStorage.count (DBStorage.save (DBStorage.new s E)) t
        = DBStorage.count s t) ∧
    (DBStorage.count (DBStorage.save (DBStorage.delete s D).1) D.etype + 1
        = DBStorage.count s D.etype) ∧
    (∀ t, t ≠ D.etype →
      DBStorage.count (DBStorage.save (DBStorage.delete s D).1) t
        = DBStorage.count s t) := by
  obtain ⟨rows, snew, sdel⟩ := s
  simp only at hWF hnew hdel hEfresh hDpers hDnochild
  subst hnew
  subst hdel
  have hrows1 : (DBStorage.save (DBStorage.new ⟨rows, [], []⟩ E)).rows
      = rows ++ [E] := by
    rw [DBStorage.save_rows_of_no_staged_del _ rfl]
    simp [DBStorage.new]
  have hdel1 : (DBStorage.delete ⟨rows, [], []⟩ D).1 = ⟨rows, [], [D]⟩ := by
    unfold DBStorage.delete
    rw [if_pos]
    · rfl
    · rcases hDpers with ⟨x, hx, hsx⟩
      rw [List.any_eq_true]
      exact ⟨x, by simpa using hx, hsx⟩
  have hrows2 : (DBStorage.save (DBStorage.delete ⟨rows, [], []⟩ D).1).rows
      = rows.filter (fun e => !sameEntity D e) := by
    rw [hdel1]
    exact DBStorage.save_rows_delete_no_children rows D hDnochild
  have hsplit : ∀ t : EntityType, rows.countP (fun e => e.etype == t)
      = (rows.countP fun e => (e.etype == t) && sameEntity D e)
        + (rows.countP fun e => (e.etype == t) && !sameEntity D e) :=
    fun t => countP_split rows _ _
  have hone : (rows.countP fun e =>
      (e.etype == D.etype) && sameEntity D e) = 1 := by
    rw [← countP_sameEntity_eq_one rows D hWF hDpers]
    apply List.countP_congr
    intro x _
    simp only [Bool.and_eq_true, beq_iff_eq, and_iff_right_iff_imp]
    intro hx
    exact ((sameEntity_iff D x).mp hx).1.symm
  refine ⟨?_, ?_, ?_, ?_⟩
  · simp only [DBStorage.count]
    rw [hrows1, List.countP_append]
    simp [List.countP_cons]
  · intro t ht
    simp only [DBStorage.count]
    rw [hrows1, List.countP_append]
    have hbe : (E.etype == t) = false := by
      simp only [beq_eq_false_iff_ne, ne_eq]
      exact fun h => ht h.symm
    simp [List.countP_cons, hbe]
  · simp only [DBStorage.count]
    rw [hrows2, List.countP_filter]
    have := hsplit D.etype
    omega
  · intro t ht
    simp only [DBStorage.count]
    rw [hrows2, List.countP_filter]
    have hzero : (rows.countP fun e =>
        (e.etype == t) && sameEntity D e) = 0 := by
      rw [List.countP_eq_zero]
      intro x _ hx
      simp only [Bool.and_eq_true, beq_iff_eq] at hx
      exact ht (hx.1.symm.trans ((sameEntity_iff D x).mp hx.2).1.symm)
    have := hsplit t
    omega

/-- Witness for C4 (amended): a store holding one User; a fresh Amenity is
inserted and the User deleted. -/
theorem count_after_new_save_and_delete_save_witness :
    (DBStorage.count
        (DBStorage.save (DBStorage.new
          ⟨[Entity.user "u1" "a@b.c" "pw"], [], []⟩ (Entity.amenity "a1" "wifi")))
        (Entity.amenity "a1" "wifi").etype
      = DBStorage.count ⟨[Entity.user "u1" "a@b.c" "pw"], [], []⟩
          (Entity.amenity "a1" "wifi").etype + 1) ∧
    (∀ t, t ≠ (Entity.amenity "a1" "wifi").etype →
      DBStorage.count
        (DBStorage.save (DBStorage.new
          ⟨[Entity.user "u1" "a@b.c" "pw"], [], []⟩ (Entity.amenity "a1" "wifi")))
        t
      = DBStorage.count ⟨[Entity.user "u1" "a@b.c" "pw"], [], []⟩ t) ∧
    (DBStorage.count
        (DBStorage.save (DBStorage.delete
          ⟨[Entity.user "u1" "a@b.c" "pw"], [], []⟩
          (Entity.user "u1" "a@b.c" "pw")).1)
        (Entity.user "u1" "a@b.c" "pw").etype + 1
      = DBStorage.count ⟨[Entity.user "u1" "a@b.c" "pw"], [], []⟩
          (Entity.user "u1" "a@b.c" "pw").etype) ∧
    (∀ t, t ≠ (Entity.user "u1" "a@b.c" "pw").etype →
      DBStorage.count
        (DBStorage.save (DBStorage.delete
          ⟨[Entity.user "u1" "a@b.c" "pw"], [], []⟩
          (Entity.user "u1" "a@b.c" "pw")).1)
        t
      = DBStorage.count ⟨[Entity.user "u1" "a@b.c" "pw"], [], []⟩ t) :=
  count_after_new_save_and_delete_save
    ⟨[Entity.user "u1" "a@b.c" "pw"], [], []⟩
    (Entity.amenity "a1" "wifi") (Entity.user "u1" "a@b.c" "pw")
    (by unfold rowsWF; decide) rfl rfl (by decide) (by decide) (by decide)

/-- C1: deleting a persisted State whose N Cities carry M Places each,
every such Place carrying K Reviews, followed by `save()`, removes the
State, exactly N Cities, N·M Places and N·M·K Reviews, leaves User and
Amenity counts unchanged, and removes no entity other than the State and
its cascade descendants. -/
theorem delete_state_cascade (s : DBStorage) (st : Entity) (N M K : Nat)
    (hWF : rowsWF s.rows) (hnew : s.stagedNew = []) (hdel : s.stagedDel = [])
    (hst : st.etype = .state)
    (hpers : ∃ x ∈ s.rows, sameEntity x st = true)
    (hN : (s.rows.countP fun e =>
      e.etype == .city && e.stateId == st.eid) = N)
    (hM : ∀ c ∈ s.rows, c.etype = .city → c.stateId = st.eid →
      (s.rows.countP fun p => p.etype == .place && p.cityId == c.eid) = M)
    (hK : ∀ p ∈ s.rows, p.etype = .place →
      (∃ c ∈ s.rows, c.etype = .city ∧ c.stateId = st.eid ∧ p.cityId = c.eid) →
      (s.rows.countP fun r => r.etype == .review && r.placeId == p.eid) = K) :
    (DBStorage.count (DBStorage.save (DBStorage.delete s st).1) .state + 1
        = DBStorage.count s .state) ∧
    (DBStorage.count (DBStorage.save (DBStorage.delete s st).1) .city + N
        = DBStorage.count s .city) ∧
    (DBStorage.count (DBStorage.save (DBStorage.delete s st).1) .place + N * M
        = DBStorage.count s .place) ∧
    (DBStorage.count (DBStorage.save (DBStorage.delete s st).1) .review
        + N * M * K = DBStorage.count s .review) ∧
    (DBStorage.count (DBStorage.save (DBStorage.delete s st).1) .user
        = DBStorage.count s .user) ∧
    (DBStorage.count (DBStorage.save (DBStorage.delete s st).1) .amenity
        = DBStorage.count s .amenity) ∧
    (∀ e ∈ s.rows, e ∉ (DBStorage.save (DBStorage.delete s st).1).rows →
      sameEntity st e = true ∨
      (e.etype = .city ∧ e.stateId = st.eid) ∨
      (e.etype = .place ∧ ∃ c ∈ s.rows, c.etype = .city ∧ c.stateId = st.eid
        ∧ e.cityId = c.eid) ∨
      (e.etype = .review ∧ ∃ p ∈ s.rows, p.etype = .place ∧ e.placeId = p.eid
        ∧ ∃ c ∈ s.rows, c.etype = .city ∧ c.stateId = st.eid
          ∧ p.cityId = c.eid)) := by
  obtain ⟨rows, snew, sdel⟩ := s
  simp only at hWF hnew hdel hpers hN hM hK
  subst hnew
  subst hdel
  have hdel1 := DBStorage.delete_fst_of_persisted rows st hpers
  have hsave : (DBStorage.save ⟨rows, [], [st]⟩).rows
      = rows.filter (fun e => !DBStorage.dead rows [st] e) := by
    simp only [DBStorage.save, List.append_nil]
  have hcount : ∀ t : EntityType,
      DBStorage.count (DBStorage.save (DBStorage.delete ⟨rows, [], []⟩ st).1) t
        = rows.countP (fun e =>
            (e.etype == t) && !DBStorage.dead rows [st] e) := by
    intro t
    rw [DBStorage.count, hdel1, hsave, List.countP_filter]
  have hdead : ∀ e, DBStorage.dead rows [st] e
      = (sameEntity st e
         || (e.etype == .city && e.stateId == st.eid)
         || (e.etype == .place
              && (DBStorage.deadCityIds rows [st]).contains e.cityId)
         || (e.etype == .review
              && (DBStorage.deadPlaceIds rows [st]).contains e.placeId)) := by
    intro e
    unfold DBStorage.dead
    rw [DBStorage.directlyDel_singleton,
      DBStorage.cityDead_of_del_state rows st hst hpers e,
      DBStorage.placeDead_of_del_state rows st hst e,
      DBStorage.reviewDead_of_del_state rows st hst e,
      DBStorage.deadCityIds_of_del_state rows st hst hpers]
  -- the cascade id lists in explicit filter form
  set dcl := (rows.filter
    (fun e => e.etype == .city && e.stateId == st.eid)).map Entity.eid with hdcl
  have hdcIds : DBStorage.deadCityIds rows [st] = dcl :=
    DBStorage.deadCityIds_of_del_state rows st hst hpers
  have hdpfilter : rows.filter (DBStorage.placeDead rows [st])
      = rows.filter (fun e => e.etype == .place && dcl.contains e.cityId) := by
    apply List.filter_congr
    intro e _
    rw [DBStorage.placeDead_of_del_state rows st hst e, hdcIds]
  set dpl := (rows.filter
    (fun e => e.etype == .place && dcl.contains e.cityId)).map Entity.eid
    with hdpl
  have hdpIds : DBStorage.deadPlaceIds rows [st] = dpl := by
    rw [DBStorage.deadPlaceIds, hdpfilter]
  -- pointwise shape of the dead predicate at each entity type
  have hps : ∀ e, ((e.etype == EntityType.state)
      && DBStorage.dead rows [st] e) = sameEntity st e := by
    intro e
    rw [hdead e]
    simp only [sameEntity, hst]
    cases e <;>
      simp [etypeBeq_false, Entity.etype, Entity.eid, Entity.stateId,
        Entity.cityId, Entity.placeId]
  have hpc : ∀ e, ((e.etype == EntityType.city)
      && DBStorage.dead rows [st] e)
      = (e.etype == EntityType.city && e.stateId == st.eid) := by
    intro e
    rw [hdead e]
    simp only [sameEntity, hst]
    cases e <;>
      simp [etypeBeq_false, Entity.etype, Entity.eid, Entity.stateId,
        Entity.cityId, Entity.placeId]
  have hpp : ∀ e, ((e.etype == EntityType.place)
      && DBStorage.dead rows [st] e)
      = (e.etype == EntityType.place
          && (DBStorage.deadCityIds rows [st]).contains e.cityId) := by
    intro e
    rw [hdead e, hdcIds]
    simp only [sameEntity, hst]
    cases e <;>
      simp [etypeBeq_false, Entity.etype, Entity.eid, Entity.stateId,
        Entity.cityId, Entity.placeId]
  have hpr : ∀ e, ((e.etype == EntityType.review)
      && DBStorage.dead rows [st] e)
      = (e.etype == EntityType.review
          && (DBStorage.deadPlaceIds rows [st]).contains e.placeId) := by
    intro e
    rw [hdead e, hdpIds]
    simp only [sameEntity, hst]
    cases e <;>
      simp [etypeBeq_false, Entity.etype, Entity.eid, Entity.stateId,
        Entity.cityId, Entity.placeId]
  have hpu : ∀ e, ((e.etype == EntityType.user)
      && DBStorage.dead rows [st] e) = false := by
    intro e
    rw [hdead e]
    simp only [sameEntity, hst]
    cases e <;>
      simp [etypeBeq_false, Entity.etype, Entity.eid, Entity.stateId,
        Entity.cityId, Entity.placeId]
  have hpa : ∀ e, ((e.etype == EntityType.amenity)
      && DBStorage.dead rows [st] e) = false := by
    intro e
    rw [hdead e]
    simp only [sameEntity, hst]
    cases e <;>
      simp [etypeBeq_false, Entity.etype, Entity.eid, Entity.stateId,
        Entity.cityId, Entity.placeId]
  -- duplicate-freeness of the cascade id lists
  have hndc : dcl.Nodup := by
    rw [hdcl]
    apply nodup_eid_of_uniform_type _ EntityType.city
    · intro e he
      have := (List.mem_filter.mp he).2
      exact beq_iff_eq.mp (Bool.and_eq_true_iff.mp this).1
    · exact nodup_key_filter rows _ hWF
  have hndp : dpl.Nodup := by
    rw [hdpl]
    apply nodup_eid_of_uniform_type _ EntityType.place
    · intro e he
      have := (List.mem_filter.mp he).2
      exact beq_iff_eq.mp (Bool.and_eq_true_iff.mp this).1
    · exact nodup_key_filter rows _ hWF
  -- number of cascade-removed entities at each level
  have hcityCount : (rows.countP fun e =>
      e.etype == EntityType.city && e.stateId == st.eid) = N := hN
  have hdclLen : dcl.length = N := by
    rw [hdcl, List.length_map, ← List.countP_eq_length_filter, hN]
  have hplaceCount : (rows.countP fun e =>
      e.etype == EntityType.place && dcl.contains e.cityId) = N * M := by
    rw [countP_contains_eq_sum rows _ Entity.cityId dcl hndc]
    have hall : ∀ y ∈ dcl.map (fun x => rows.countP fun e =>
        (e.etype == EntityType.place) && (e.cityId == x)), y = M := by
      intro y hy
      rcases List.mem_map.mp hy with ⟨x, hx, rfl⟩
      rw [hdcl] at hx
      rcases (DBStorage.mem_map_eid_filter rows _ x).mp hx with
        ⟨c, hc, hcp, hce⟩
      have hcp' := Bool.and_eq_true_iff.mp hcp
      rw [← hce]
      exact hM c hc (beq_iff_eq.mp hcp'.1) (beq_iff_eq.mp hcp'.2)
    rw [sum_of_const _ M hall, List.length_map, hdclLen]
  have hdplLen : dpl.length = N * M := by
    rw [hdpl, List.length_map, ← List.countP_eq_length_filter, hplaceCount]
  have hreviewCount : (rows.countP fun e =>
      e.etype == EntityType.review && dpl.contains e.placeId)
      = N * M * K := by
    rw [countP_contains_eq_sum rows _ Entity.placeId dpl hndp]
    have hall : ∀ y ∈ dpl.map (fun x => rows.countP fun e =>
        (e.etype == EntityType.review) && (e.placeId == x)), y = K := by
      intro y hy
      rcases List.mem_map.mp hy with ⟨x, hx, rfl⟩
      rw [hdpl] at hx
      rcases (DBStorage.mem_map_eid_filter rows _ x).mp hx with
        ⟨p, hp, hpq, hpe⟩
      have hpq' := Bool.and_eq_true_iff.mp hpq
      have hcmem : ∃ c ∈ rows, c.etype = .city ∧ c.stateId = st.eid
          ∧ p.cityId = c.eid := by
        have hm := List.elem_iff.mp hpq'.2
        rw [hdcl] at hm
        rcases (DBStorage.mem_map_eid_filter rows _ p.cityId).mp hm with
          ⟨c, hc, hcp, hce⟩
        have hcp' := Bool.and_eq_true_iff.mp hcp
        exact ⟨c, hc, beq_iff_eq.mp hcp'.1, beq_iff_eq.mp hcp'.2, hce.symm⟩
      rw [← hpe]
      exact hK p hp (beq_iff_eq.mp hpq'.1) hcmem
    rw [sum_of_const _ K hall, List.length_map, hdplLen]
  have hstateCount : (rows.countP fun e => sameEntity st e) = 1 :=
    countP_sameEntity_eq_one rows st hWF hpers
  -- assemble: each per-type count via the split identity
  have hmain : ∀ (t : EntityType) (d : Nat),
      (rows.countP fun e => (e.etype == t)
        && DBStorage.dead rows [st] e) = d →
      DBStorage.count (DBStorage.save (DBStorage.delete ⟨rows, [], []⟩ st).1) t
        + d = rows.countP (fun e => e.etype == t) := by
    intro t d hd
    rw [hcount t, ← hd]
    have hs := countP_split rows (fun e => e.etype == t)
      (fun e => DBStorage.dead rows [st] e)
    omega
  refine ⟨?_, ?_, ?_, ?_, ?_, ?_, ?_⟩
  · exact hmain .state 1 (by
      rw [List.countP_congr (fun e _ => by rw [hps e])]
      exact hstateCount)
  · exact hmain .city N (by
      rw [List.countP_congr (fun e _ => by rw [hpc e])]
      exact hcityCount)
  · exact hmain .place (N * M) (by
      rw [List.countP_congr (fun e _ => by rw [hpp e])]
      rw [List.countP_congr (fun e _ => by rw [hdcIds])]
      exact hplaceCount)
  · exact hmain .review (N * M * K) (by
      rw [List.countP_congr (fun e _ => by rw [hpr e])]
      rw [List.countP_congr (fun e _ => by rw [hdpIds])]
      exact hreviewCount)
  · have h := hmain .user 0 (by
      rw [List.countP_congr (fun e _ => by rw [hpu e])]
      simp)
    simp only [DBStorage.count] at h ⊢
    omega
  · have h := hmain .amenity 0 (by
      rw [List.countP_congr (fun e _ => by rw [hpa e])]
      simp)
    simp only [DBStorage.count] at h ⊢
    omega
  · intro e he hnotin
    have hde : DBStorage.dead rows [st] e = true := by
      by_contra hcon
      rw [Bool.not_eq_true] at hcon
      apply hnotin
      rw [hdel1, hsave]
      exact List.mem_filter.mpr ⟨he, by rw [hcon]; rfl⟩
    rw [hdead e] at hde
    rcases Bool.or_eq_true_iff.mp hde with h3 | hrev
    · rcases Bool.or_eq_true_iff.mp h3 with h2 | hpl
      · rcases Bool.or_eq_true_iff.mp h2 with h1 | hci
        · exact Or.inl h1
        · have h := Bool.and_eq_true_iff.mp hci
          exact Or.inr (Or.inl ⟨beq_iff_eq.mp h.1, beq_iff_eq.mp h.2⟩)
      · have h := Bool.and_eq_true_iff.mp hpl
        have hm := List.elem_iff.mp h.2
        rw [hdcIds, hdcl] at hm
        rcases (DBStorage.mem_map_eid_filter rows _ e.cityId).mp hm with
          ⟨c, hc, hcp, hce⟩
        have hcp' := Bool.and_eq_true_iff.mp hcp
        exact Or.inr (Or.inr (Or.inl ⟨beq_iff_eq.mp h.1,
          c, hc, beq_iff_eq.mp hcp'.1, beq_iff_eq.mp hcp'.2, hce.symm⟩))
    · have h := Bool.and_eq_true_iff.mp hrev
      have hm := List.elem_iff.mp h.2
      rw [hdpIds, hdpl] at hm
      rcases (DBStorage.mem_map_eid_filter rows _ e.placeId).mp hm with
        ⟨p, hp, hpq, hpe⟩
      have hpq' := Bool.and_eq_true_iff.mp hpq
      have hm2 := List.elem_iff.mp hpq'.2
      rw [hdcl] at hm2
      rcases (DBStorage.mem_map_eid_filter rows _ p.cityId).mp hm2 with
        ⟨c, hc, hcp, hce⟩
      have hcp' := Bool.and_eq_true_iff.mp hcp
      exact Or.inr (Or.inr (Or.inr ⟨beq_iff_eq.mp h.1,
        p, hp, beq_iff_eq.mp hpq'.1, hpe.symm,
        c, hc, beq_iff_eq.mp hcp'.1, beq_iff_eq.mp hcp'.2, hce.symm⟩))

/-- A concrete relational store: one State owning one City, with one Place
and one Review under it, plus an unrelated User. -/
def c1Store : DBStorage :=
  ⟨[Entity.state "s1" "CA",
    Entity.city "c1" "SF" "s1",
    Entity.place "p1" "Loft" "c1" "u1" [],
    Entity.review "r1" "Nice" "p1" "u1",
    Entity.user "u1" "a@b.c" "pw"], [], []⟩

/-- Witness for C1 at `c1Store` with N = M = K = 1. -/
theorem delete_state_cascade_witness :
    (DBStorage.count
        (DBStorage.save (DBStorage.delete c1Store (Entity.state "s1" "CA")).1)
        .state + 1 = DBStorage.count c1Store .state) ∧
    (DBStorage.count
        (DBStorage.save (DBStorage.delete c1Store (Entity.state "s1" "CA")).1)
        .city + 1 = DBStorage.count c1Store .city) ∧
    (DBStorage.count
        (DBStorage.save (DBStorage.delete c1Store (Entity.state "s1" "CA")).1)
        .place + 1 * 1 = DBStorage.count c1Store .place) ∧
    (DBStorage.count
        (DBStorage.save (DBStorage.delete c1Store (Entity.state "s1" "CA")).1)
        .review + 1 * 1 * 1 = DBStorage.count c1Store .review) ∧
    (DBStorage.count
        (DBStorage.save (DBStorage.delete c1Store (Entity.state "s1" "CA")).1)
        .user = DBStorage.count c1Store .user) ∧
    (DBStorage.count
        (DBStorage.save (DBStorage.delete c1Store (Entity.state "s1" "CA")).1)
        .amenity = DBStorage.count c1Store .amenity) ∧
    (∀ e ∈ c1Store.rows, e ∉ (DBStorage.save
        (DBStorage.delete c1Store (Entity.state "s1" "CA")).1).rows →
      sameEntity (Entity.state "s1" "CA") e = true ∨
      (e.etype = .city ∧ e.stateId = (Entity.state "s1" "CA").eid) ∨
      (e.etype = .place ∧ ∃ c ∈ c1Store.rows, c.etype = .city
        ∧ c.stateId = (Entity.state "s1" "CA").eid ∧ e.cityId = c.eid) ∨
      (e.etype = .review ∧ ∃ p ∈ c1Store.rows, p.etype = .place
        ∧ e.placeId = p.eid ∧ ∃ c ∈ c1Store.rows, c.etype = .city
          ∧ c.stateId = (Entity.state "s1" "CA").eid
          ∧ p.cityId = c.eid)) :=
  delete_state_cascade c1Store (Entity.state "s1" "CA") 1 1 1
    (by unfold rowsWF; decide) rfl rfl rfl
    (by decide) (by decide) (by decide) (by decide)

/-- Modelled from the spec: the file storage engine of §4.2
(`models/engine/file_storage.py`, not present under `src/`).  Its state is
"a single in-memory mapping from a composite key (entity type name + id)
to entity instance, plus a reference to the most recent snapshot on
persistent storage". -/
structure FileStorage where
  objects : List (String × Entity)
  snapshot : Option (List (String × Entity))
deriving DecidableEq, Repr

namespace FileStorage

/-- Modelled from the spec: `new(entity)` "inserts into the in-memory
mapping" under the composite key, with "no persistence side effect until
`save`" (§4.2).  Mapping insertion replaces any previous binding of the
key. -/
def new (s : FileStorage) (e : Entity) : FileStorage :=
  { s with objects :=
      s.objects.filter (fun kv => !(kv.1 == compositeKey e))
        ++ [(compositeKey e, e)] }

/-- Modelled from the spec: `save()` "serializes every entity in the
mapping to a persisted snapshot, overwriting the previous one entirely"
(§4.2); the spec's round-trip property (§8) makes serialization the
identity on the mapping here. -/
def save (s : FileStorage) : FileStorage :=
  { s with snapshot := some s.objects }

/-- Modelled from the spec: `reload()` "reads the snapshot (if present;
absence is not an error) and repopulates the in-memory mapping" (§4.2). -/
def reload (s : FileStorage) : FileStorage :=
  match s.snapshot with
  | none => s
  | some m => { s with objects := m }

/-- Modelled from the spec: `delete(entity)` "removes it from the
mapping" (§4.2). -/
def delete (s : FileStorage) (e : Entity) : FileStorage :=
  { s with objects :=
      s.objects.filter (fun kv => !(kv.1 == compositeKey e)) }

/-- Modelled from the spec: `all(type=optional)` "returns every entity, or
every entity of the given type, as a mapping" (§4.2). -/
def all (s : FileStorage) (t : Option EntityType) : List (String × Entity) :=
  match t with
  | none => s.objects
  | some t => s.objects.filter (fun kv => kv.2.etype == t)

/-- Modelled from the spec: `get(type, id)` "returns the entity with that
type and id, or none" (§4.2). -/
def get (s : FileStorage) (t : EntityType) (i : String) : Option Entity :=
  (s.objects.find? (fun kv => kv.2.etype == t && kv.2.eid == i)).map Prod.snd

/-- One storage-facade call, for stating invariants over call sequences. -/
inductive Op where
  | new (e : Entity)
  | save
  | reload
  | del (e : Entity)
deriving DecidableEq, Repr

/-- Apply one call to the store. -/
def step (s : FileStorage) : Op → FileStorage
  | .new e => s.new e
  | .save => s.save
  | .reload => s.reload
  | .del e => s.delete e

/-- Run a call sequence from the empty, never-persisted store. -/
def run (ops : List Op) : FileStorage :=
  ops.foldl step ⟨[], none⟩

/-- Every binding of the mapping keys an entity by its composite key. -/
def keysWF (m : List (String × Entity)) : Prop :=
  ∀ kv ∈ m, kv.1 = compositeKey kv.2

/-- The inductive invariant: both the in-memory mapping and the snapshot
(when one exists) are keyed by composite keys. -/
def invariant (s : FileStorage) : Prop :=
  keysWF s.objects ∧ ∀ m, s.snapshot = some m → keysWF m

theorem keysWF_filter (m : List (String × Entity))
    (p : String × Entity → Bool) (h : keysWF m) : keysWF (m.filter p) :=
  fun kv hkv => h kv (List.mem_filter.mp hkv).1

theorem invariant_step (s : FileStorage) (op : Op) (h : invariant s) :
    invariant (step s op) := by
  rcases h with ⟨hobj, hsnap⟩
  cases op with
  | new e =>
    refine ⟨?_, hsnap⟩
    intro kv hkv
    rcases List.mem_append.mp hkv with hl | hr
    · exact keysWF_filter _ _ hobj kv hl
    · rcases List.mem_singleton.mp hr with rfl
      rfl
  | save =>
    refine ⟨hobj, ?_⟩
    intro m hm
    cases hm
    exact hobj
  | reload =>
    unfold step reload
    cases hs : s.snapshot with
    | none => exact ⟨hobj, hsnap⟩
    | some m =>
      exact ⟨hsnap m hs, fun m' hm' => hsnap m' (hs ▸ hm')⟩
  | del e =>
    exact ⟨keysWF_filter _ _ hobj, hsnap⟩

theorem invariant_foldl (ops : List Op) :
    ∀ s : FileStorage, invariant s → invariant (ops.foldl step s) := by
  induction ops with
  | nil => intro s h; exact h
  | cons op rest ih =>
    intro s h
    exact ih (step s op) (invariant_step s op h)

theorem invariant_run (ops : List Op) : invariant (run ops) :=
  invariant_foldl ops ⟨[], none⟩ ⟨fun _ h => absurd h (by simp), by simp⟩

end FileStorage

/-- C8: after every sequence of `new`/`save`/`delete`/`reload` calls from
the empty store, every key of the mapping returned by `all()` — with or
without a type argument — is the composite key `"<TypeName>.<id>"` of the
entity it maps to. -/
theorem all_keys_are_composite (ops : List FileStorage.Op)
    (t : Option EntityType) :
    ∀ kv ∈ FileStorage.all (FileStorage.run ops) t,
      kv.1 = compositeKey kv.2 := by
  intro kv hkv
  have hinv := FileStorage.invariant_run ops
  cases t with
  | none => exact hinv.1 kv hkv
  | some t =>
    exact hinv.1 kv (List.mem_filter.mp hkv).1

/-- Witness for C8: one `new` then `save`, inspected with and without a
type filter. -/
theorem all_keys_are_composite_witness :
    ((FileStorage.all
        (FileStorage.run [FileStorage.Op.new (Entity.state "s1" "CA"),
          FileStorage.Op.save])
        none).map Prod.fst = ["State.s1"]) ∧
    ("State.s1", Entity.state "s1" "CA")
      ∈ FileStorage.all
        (FileStorage.run [FileStorage.Op.new (Entity.state "s1" "CA"),
          FileStorage.Op.save])
        (some .state) ∧
    ("State.s1" : String)
      = compositeKey (Entity.state "s1" "CA") :=
  ⟨by decide, by decide,
    all_keys_are_composite
      [FileStorage.Op.new (Entity.state "s1" "CA"), FileStorage.Op.save]
      (some .state)
      ("State.s1", Entity.state "s1" "CA") (by decide)⟩

/-- Property `City.places` in file-storage mode (`models/city.py`, lines 38-50):
fetch `storage.all(Place)` and keep the values whose `city_id` equals the
city's id. -/
def cityPlaces (fs : FileStorage) (c : Entity) : List Entity :=
  ((FileStorage.all fs (some .place)).map Prod.snd).filter
    (fun p => p.cityId == c.eid)

/-- The spec's description of the traversal (§4.2): scan all stored
entities and keep the Places whose `city_id` equals the city's id. -/
def scanPlaces (fs : FileStorage) (c : Entity) : List Entity :=
  (fs.objects.map Prod.snd).filter
    (fun p => p.etype == .place && p.cityId == c.eid)

/-- C7: in file-storage mode, `c.places` returns exactly the entities
obtained by scanning all stored Place entities and keeping those whose
`city_id` equals `c.id`. -/
theorem cityPlaces_eq_scan (fs : FileStorage) (c : Entity) :
    cityPlaces fs c = scanPlaces fs c := by
  unfold cityPlaces scanPlaces FileStorage.all
  induction fs.objects with
  | nil => rfl
  | cons kv rest ih =>
    by_cases hp : kv.2.etype = EntityType.place
    · by_cases hc : kv.2.cityId = c.eid <;>
        simp [hp, hc, List.filter_cons, ih]
    · have hb : (kv.2.etype == EntityType.place) = false := etypeBeq_false hp
      simp [List.filter_cons, hb, ih]

/-- Modelled from the spec: `Place.amenities` in file-storage mode
(`models/place.py`, not under `src/`) returns the stored Amenity entities
whose ids appear in the Place's `amenity_ids` list — "Amenity linkage on a
Place is stored as a list of Amenity ids carried directly on the Place
entity" (§4.2), traversal by scan and filter (§4.2). -/
def placeAmenities (fs : FileStorage) (p : Entity) : List Entity :=
  ((FileStorage.all fs (some .amenity)).map Prod.snd).filter
    (fun a => p.amenityIds.contains a.eid)

/-- Modelled from the spec: the `Place.amenities` setter in file-storage
mode appends the linked Amenity's id to `amenity_ids` (§4.2). -/
def addAmenityId : Entity → String → Entity
  | .place i n c u ids, aid => .place i n c u (ids ++ [aid])
  | e, _ => e

/-- Call `place.amenity_ids.remove(amenity.id)` of the DELETE view: drop the
first occurrence of the id. -/
def removeAmenityId : Entity → String → Entity
  | .place i n c u ids, aid => .place i n c u (ids.erase aid)
  | e, _ => e

/-- The mutation of the fetched Place followed by `place.save()`: in file
mode the storage holds the same object, so the store now maps the Place's
key to the updated value. -/
def setEntity (fs : FileStorage) (old new : Entity) : FileStorage :=
  { fs with objects :=
      fs.objects.map (fun kv => if kv.2 == old then (kv.1, new) else kv) }

/-- View `add_amenity_to_place` of `places_amenities.py` (POST
/places/<place_id>/amenities/<amenity_id>, lines 67-96), file-storage
branch: 404 when the Place or the Amenity is missing; 201 and a new link
when the Amenity is not yet among the Place's amenities; 200 and no change
when it already is. -/
def add_amenity_to_place (fs : FileStorage) (place_id amenity_id : String) :
    FileStorage × Nat :=
  match FileStorage.get fs .place place_id,
      FileStorage.get fs .amenity amenity_id with
  | some place, some amenity =>
    if (placeAmenities fs place).any (fun x => sameEntity x amenity) then
      (fs, 200)
    else
      (setEntity fs place (addAmenityId place amenity.eid), 201)
  | _, _ => (fs, 404)

/-- View `delete_amenity_from_place` of `places_amenities.py` (DELETE, lines
36-64), file-storage branch: 404 when the Place or the Amenity is missing
or when `amenity_ids.remove` raises `ValueError` (id not linked);
otherwise the link is removed and 200 returned. -/
def delete_amenity_from_place (fs : FileStorage)
    (place_id amenity_id : String) : FileStorage × Nat :=
  match FileStorage.get fs .place place_id,
      FileStorage.get fs .amenity amenity_id with
  | some place, some amenity =>
    if place.amenityIds.contains amenity.eid then
      (setEntity fs place (removeAmenityId place amenity.eid), 200)
    else
      (fs, 404)
  | _, _ => (fs, 404)

/-- Cons step of a value-keyed search, positive case. -/
theorem find_snd_cons_pos (pred : Entity → Bool) (kv : String × Entity)
    (l : List (String × Entity)) (h : pred kv.2 = true) :
    (kv :: l).find? (fun kv => pred kv.2) = some kv :=
  List.find?_cons_of_pos l h

/-- Cons step of a value-keyed search, negative case. -/
theorem find_snd_cons_neg (pred : Entity → Bool) (kv : String × Entity)
    (l : List (String × Entity)) (h : pred kv.2 = false) :
    (kv :: l).find? (fun kv => pred kv.2) = l.find? (fun kv => pred kv.2) :=
  List.find?_cons_of_neg l (by simp [h])

/-- An entity found by the predicate of a keyed search satisfies it. -/
theorem pred_of_find_snd (l : List (String × Entity)) (pred : Entity → Bool)
    (x : Entity)
    (h : (l.find? (fun kv => pred kv.2)).map Prod.snd = some x) :
    pred x = true := by
  cases hf : l.find? (fun kv => pred kv.2) with
  | none => rw [hf] at h; exact absurd h (by simp)
  | some kv =>
    rw [hf, Option.map_some'] at h
    cases h
    have hp := List.find?_some hf
    exact hp

/-- An entity found by the predicate of a keyed search is stored. -/
theorem mem_of_find_snd (l : List (String × Entity)) (pred : Entity → Bool)
    (x : Entity)
    (h : (l.find? (fun kv => pred kv.2)).map Prod.snd = some x) :
    x ∈ l.map Prod.snd := by
  cases hf : l.find? (fun kv => pred kv.2) with
  | none => rw [hf] at h; exact absurd h (by simp)
  | some kv =>
    rw [hf, Option.map_some'] at h
    cases h
    exact List.mem_map_of_mem Prod.snd (List.mem_of_find?_eq_some hf)

/-- Replacing the found value by one still matching the search leaves the
search finding the replacement. -/
theorem find_snd_map_replace (l : List (String × Entity)) (old nw : Entity)
    (pred : Entity → Bool)
    (hfind : (l.find? (fun kv => pred kv.2)).map Prod.snd = some old)
    (hnew : pred nw = true) :
    ((l.map (fun kv => if kv.2 == old then (kv.1, nw) else kv)).find?
      (fun kv => pred kv.2)).map Prod.snd = some nw := by
  have hpold := pred_of_find_snd l pred old hfind
  induction l with
  | nil => rw [List.find?_nil] at hfind; exact absurd hfind (by simp)
  | cons kv rest ih =>
    cases hpk : pred kv.2 with
    | true =>
      have hkv : kv.2 = old := by
        rw [find_snd_cons_pos pred kv rest hpk] at hfind
        simpa using hfind
      have hbeq : (kv.2 == old) = true := beq_iff_eq.mpr hkv
      rw [List.map_cons, hbeq, if_pos rfl,
        find_snd_cons_pos pred (kv.1, nw) _ hnew]
      rfl
    | false =>
      have hne : (kv.2 == old) = false := by
        cases hq : (kv.2 == old) with
        | false => rfl
        | true =>
          rw [beq_iff_eq.mp hq, hpold] at hpk
          exact hpk
      rw [find_snd_cons_neg pred kv rest hpk] at hfind
      rw [List.map_cons, hne, if_neg (by simp),
        find_snd_cons_neg pred kv _ hpk]
      exact ih hfind

/-- Replacing a value that the search does not match, by one it does not
match either, leaves the search unchanged. -/
theorem find_snd_map_replace_other (l : List (String × Entity))
    (old nw : Entity) (pred : Entity → Bool)
    (hold : pred old = false) (hnew : pred nw = false) :
    (l.map (fun kv => if kv.2 == old then (kv.1, nw) else kv)).find?
      (fun kv => pred kv.2) = l.find? (fun kv => pred kv.2) := by
  induction l with
  | nil => rfl
  | cons kv rest ih =>
    cases hq : (kv.2 == old) with
    | true =>
      have hkv : kv.2 = old := beq_iff_eq.mp hq
      rw [List.map_cons, hq, if_pos rfl,
        find_snd_cons_neg pred (kv.1, nw) _ hnew,
        find_snd_cons_neg pred kv rest (by rw [hkv]; exact hold)]
      exact ih
    | false =>
      rw [List.map_cons, hq, if_neg (by simp)]
      cases hpk : pred kv.2 with
      | true =>
        rw [find_snd_cons_pos pred kv _ hpk, find_snd_cons_pos pred kv _ hpk]
      | false =>
        rw [find_snd_cons_neg pred kv _ hpk, find_snd_cons_neg pred kv _ hpk]
        exact ih

/-- After the in-place update of a fetched entity, `get` of its type and
id returns the updated value. -/
theorem get_setEntity_self (fs : FileStorage) (old nw : Entity)
    (t : EntityType) (i : String)
    (hget : FileStorage.get fs t i = some old)
    (ht : nw.etype = old.etype) (hi : nw.eid = old.eid) :
    FileStorage.get (setEntity fs old nw) t i = some nw := by
  have hget' : (fs.objects.find?
      (fun kv => kv.2.etype == t && kv.2.eid == i)).map Prod.snd
      = some old := hget
  have hpold : (old.etype == t && old.eid == i) = true :=
    pred_of_find_snd fs.objects (fun e => e.etype == t && e.eid == i)
      old hget'
  have hnew : (nw.etype == t && nw.eid == i) = true := by
    rw [ht, hi]
    exact hpold
  exact find_snd_map_replace fs.objects old nw
    (fun e => e.etype == t && e.eid == i) hget' hnew

/-- The in-place update of an entity leaves `get` at a type and id neither
the old nor the new value matches unchanged. -/
theorem get_setEntity_other (fs : FileStorage) (old nw : Entity)
    (t : EntityType) (i : String)
    (hold : (old.etype == t && old.eid == i) = false)
    (hnew : (nw.etype == t && nw.eid == i) = false) :
    FileStorage.get (setEntity fs old nw) t i = FileStorage.get fs t i :=
  congrArg (Option.map Prod.snd)
    (find_snd_map_replace_other fs.objects old nw
      (fun e => e.etype == t && e.eid == i) hold hnew)

/-- The in-place update of an entity of another type leaves `all` at a
type filter unchanged. -/
theorem all_setEntity_other_type (fs : FileStorage) (old nw : Entity)
    (t : EntityType)
    (hto : (old.etype == t) = false) (htn : (nw.etype == t) = false) :
    FileStorage.all (setEntity fs old nw) (some t)
      = FileStorage.all fs (some t) := by
  show (fs.objects.map _).filter _ = fs.objects.filter _
  induction fs.objects with
  | nil => rfl
  | cons kv rest ih =>
    cases hq : (kv.2 == old) with
    | true =>
      have hkv : kv.2 = old := beq_iff_eq.mp hq
      rw [List.map_cons, hq, if_pos rfl, List.filter_cons, List.filter_cons]
      simp only [htn, hkv, hto]
      exact ih
    | false =>
      rw [List.map_cons, hq, if_neg (by simp), List.filter_cons,
        List.filter_cons]
      cases hpt : (kv.2.etype == t) <;> simp [hpt] <;> simpa using ih

theorem sameEntity_refl (a : Entity) : sameEntity a a = true := by
  simp [sameEntity]

/-- A place's etype characterizes its constructor. -/
theorem eq_place_of_etype (p : Entity) (h : p.etype = .place) :
    ∃ i n c u ids, p = .place i n c u ids := by
  cases p with
  | place i n c u ids => exact ⟨i, n, c, u, ids, rfl⟩
  | state a b => exact EntityType.noConfusion h
  | city a b c => exact EntityType.noConfusion h
  | user a b c => exact EntityType.noConfusion h
  | amenity a b => exact EntityType.noConfusion h
  | review a b c d => exact EntityType.noConfusion h

/-- A stored Amenity with its id among a Place's `amenity_ids` makes the
membership test of the view true. -/
theorem any_amenities_true (fs : FileStorage) (p a : Entity)
    (hmem : a ∈ fs.objects.map Prod.snd) (hat : a.etype = .amenity)
    (hin : p.amenityIds.contains a.eid = true) :
    (placeAmenities fs p).any (fun x => sameEntity x a) = true := by
  rw [List.any_eq_true]
  refine ⟨a, ?_, sameEntity_refl a⟩
  unfold placeAmenities FileStorage.all
  rw [List.mem_filter]
  constructor
  · rcases List.mem_map.mp hmem with ⟨kv, hkv, rfl⟩
    exact List.mem_map_of_mem Prod.snd
      (List.mem_filter.mpr ⟨hkv, by simp [hat]⟩)
  · exact hin

/-- An id absent from a Place's `amenity_ids` makes the membership test of
the view false. -/
theorem any_amenities_false (fs : FileStorage) (p a : Entity)
    (hnin : p.amenityIds.contains a.eid = false) :
    (placeAmenities fs p).any (fun x => sameEntity x a) = false := by
  cases hq : (placeAmenities fs p).any (fun x => sameEntity x a) with
  | false => rfl
  | true =>
    rw [List.any_eq_true] at hq
    rcases hq with ⟨x, hx, hsx⟩
    unfold placeAmenities at hx
    rw [List.mem_filter] at hx
    have hcx := hx.2
    rw [((sameEntity_iff x a).mp hsx).2, hnin] at hcx
    exact hcx.symm

/-- An in-place update keeps every other stored value stored. -/
theorem mem_values_setEntity (fs : FileStorage) (old nw x : Entity)
    (hx : x ∈ fs.objects.map Prod.snd) (hne : x ≠ old) :
    x ∈ (setEntity fs old nw).objects.map Prod.snd := by
  rcases List.mem_map.mp hx with ⟨kv, hkv, rfl⟩
  apply List.mem_map.mpr
  refine ⟨(fun kv => if kv.2 == old then (kv.1, nw) else kv) kv,
    List.mem_map_of_mem _ hkv, ?_⟩
  have hb : (kv.2 == old) = false := by
    cases hq : (kv.2 == old) with
    | false => rfl
    | true => exact absurd (beq_iff_eq.mp hq) hne
  simp [hb]

/-- C5: linking an Amenity to a Place is idempotent.  The second link
leaves the store exactly as the first left it, answers 200 instead of
201, and the Place's amenity set then contains the Amenity's id exactly
once. -/
theorem add_amenity_to_place_idempotent (fs : FileStorage)
    (place_id amenity_id : String) (p a : Entity)
    (hp : FileStorage.get fs .place place_id = some p)
    (ha : FileStorage.get fs .amenity amenity_id = some a)
    (hnd : p.amenityIds.Nodup) :
    (add_amenity_to_place (add_amenity_to_place fs place_id amenity_id).1
        place_id amenity_id).1
      = (add_amenity_to_place fs place_id amenity_id).1 ∧
    (add_amenity_to_place (add_amenity_to_place fs place_id amenity_id).1
        place_id amenity_id).2 = 200 ∧
    ∃ p', FileStorage.get
        (add_amenity_to_place (add_amenity_to_place fs place_id amenity_id).1
          place_id amenity_id).1 .place place_id = some p' ∧
      p'.amenityIds.count a.eid = 1 := by
  have hp' : (fs.objects.find?
      (fun kv => kv.2.etype == .place && kv.2.eid == place_id)).map Prod.snd
      = some p := hp
  have ha' : (fs.objects.find?
      (fun kv => kv.2.etype == .amenity && kv.2.eid == amenity_id)).map
        Prod.snd = some a := ha
  have hppred : (p.etype == EntityType.place && p.eid == place_id) = true :=
    pred_of_find_snd fs.objects
      (fun e => e.etype == EntityType.place && e.eid == place_id) p hp'
  have hapred : (a.etype == EntityType.amenity && a.eid == amenity_id)
      = true :=
    pred_of_find_snd fs.objects
      (fun e => e.etype == EntityType.amenity && e.eid == amenity_id) a ha'
  have hpt : p.etype = .place := by
    have := Bool.and_eq_true_iff.mp hppred
    exact beq_iff_eq.mp this.1
  have hat : a.etype = .amenity := by
    have := Bool.and_eq_true_iff.mp hapred
    exact beq_iff_eq.mp this.1
  have hamem : a ∈ fs.objects.map Prod.snd :=
    mem_of_find_snd fs.objects
      (fun e => e.etype == EntityType.amenity && e.eid == amenity_id) a ha'
  cases hin : p.amenityIds.contains a.eid with
  | true =>
    have hg1 := any_amenities_true fs p a hamem hat hin
    have e1 : add_amenity_to_place fs place_id amenity_id = (fs, 200) := by
      simp [add_amenity_to_place, hp, ha, hg1]
    have e1' : (add_amenity_to_place fs place_id amenity_id).1 = fs := by
      rw [e1]
    refine ⟨?_, ?_, p, ?_,
      List.count_eq_one_of_mem hnd (List.elem_iff.mp hin)⟩
    · rw [e1', e1']
    · rw [e1', e1]
    · rw [e1', e1']
      exact hp
  | false =>
    rcases eq_place_of_etype p hpt with ⟨pi, pn, pc, pu, ids, rfl⟩
    have hg1 := any_amenities_false fs (Entity.place pi pn pc pu ids) a hin
    have e1 : add_amenity_to_place fs place_id amenity_id
        = (setEntity fs (Entity.place pi pn pc pu ids)
            (Entity.place pi pn pc pu (ids ++ [a.eid])), 201) := by
      simp [add_amenity_to_place, hp, ha, hg1, addAmenityId]
    have hget1p : FileStorage.get
        (setEntity fs (Entity.place pi pn pc pu ids)
          (Entity.place pi pn pc pu (ids ++ [a.eid]))) .place place_id
        = some (Entity.place pi pn pc pu (ids ++ [a.eid])) :=
      get_setEntity_self fs _ _ .place place_id hp rfl rfl
    have hga : ((Entity.place pi pn pc pu ids).etype == EntityType.amenity
        && (Entity.place pi pn pc pu ids).eid == amenity_id) = false := by
      rw [show ((Entity.place pi pn pc pu ids).etype == EntityType.amenity)
        = false from etypeBeq_false (fun hc => EntityType.noConfusion hc),
        Bool.false_and]
    have hga2 : ((Entity.place pi pn pc pu (ids ++ [a.eid])).etype
        == EntityType.amenity
        && (Entity.place pi pn pc pu (ids ++ [a.eid])).eid == amenity_id)
        = false := by
      rw [show ((Entity.place pi pn pc pu (ids ++ [a.eid])).etype
        == EntityType.amenity) = false
        from etypeBeq_false (fun hc => EntityType.noConfusion hc),
        Bool.false_and]
    have hget1a : FileStorage.get
        (setEntity fs (Entity.place pi pn pc pu ids)
          (Entity.place pi pn pc pu (ids ++ [a.eid]))) .amenity amenity_id
        = some a := by
      rw [get_setEntity_other fs _ _ .amenity amenity_id hga hga2]
      exact ha
    have hamem1 : a ∈ (setEntity fs (Entity.place pi pn pc pu ids)
        (Entity.place pi pn pc pu (ids ++ [a.eid]))).objects.map Prod.snd := by
      apply mem_values_setEntity fs _ _ a hamem
      intro hcon
      rw [hcon] at hat
      exact EntityType.noConfusion hat
    have hin2 : (Entity.place pi pn pc pu (ids ++ [a.eid])).amenityIds.contains
        a.eid = true := by
      rw [List.elem_iff]
      simp [Entity.amenityIds]
    have hg2 := any_amenities_true
      (setEntity fs (Entity.place pi pn pc pu ids)
        (Entity.place pi pn pc pu (ids ++ [a.eid])))
      (Entity.place pi pn pc pu (ids ++ [a.eid])) a hamem1 hat hin2
    have e2 : add_amenity_to_place
        (setEntity fs (Entity.place pi pn pc pu ids)
          (Entity.place pi pn pc pu (ids ++ [a.eid]))) place_id amenity_id
        = (setEntity fs (Entity.place pi pn pc pu ids)
            (Entity.place pi pn pc pu (ids ++ [a.eid])), 200) := by
      simp [add_amenity_to_place, hget1p, hget1a, hg2]
    refine ⟨by rw [e1, e2], by rw [e1, e2],
      Entity.place pi pn pc pu (ids ++ [a.eid]), by rw [e1, e2]; exact hget1p,
      ?_⟩
    have hnotmem : a.eid ∉ ids := by
      intro hmem2
      have hct : (Entity.place pi pn pc pu ids).amenityIds.contains a.eid
          = true := List.elem_iff.mpr hmem2
      rw [hct] at hin
      exact Bool.noConfusion hin
    simp [Entity.amenityIds, List.count_append,
      List.count_eq_zero.mpr hnotmem]

/-- C6: unlinking an Amenity that exists but was never linked to an
existing Place answers 404 and leaves the whole store unchanged. -/
theorem delete_amenity_not_linked (fs : FileStorage)
    (place_id amenity_id : String) (p a : Entity)
    (hp : FileStorage.get fs .place place_id = some p)
    (ha : FileStorage.get fs .amenity amenity_id = some a)
    (hnin : a.eid ∉ p.amenityIds) :
    delete_amenity_from_place fs place_id amenity_id = (fs, 404) := by
  simp [delete_amenity_from_place, hp, ha, hnin]

/-- A concrete file store with one Place (no links yet) and one Amenity. -/
def viewStore : FileStorage :=
  ⟨[("Place.p1", Entity.place "p1" "Loft" "c1" "u1" []),
    ("Amenity.a1", Entity.amenity "a1" "wifi")], none⟩

/-- Witness for C5 at `viewStore`. -/
theorem add_amenity_to_place_idempotent_witness :
    (add_amenity_to_place (add_amenity_to_place viewStore "p1" "a1").1
        "p1" "a1").1
      = (add_amenity_to_place viewStore "p1" "a1").1 ∧
    (add_amenity_to_place (add_amenity_to_place viewStore "p1" "a1").1
        "p1" "a1").2 = 200 ∧
    ∃ p', FileStorage.get
        (add_amenity_to_place (add_amenity_to_place viewStore "p1" "a1").1
          "p1" "a1").1 .place "p1" = some p' ∧
      p'.amenityIds.count (Entity.amenity "a1" "wifi").eid = 1 :=
  add_amenity_to_place_idempotent viewStore "p1" "a1"
    (Entity.place "p1" "Loft" "c1" "u1" []) (Entity.amenity "a1" "wifi")
    (by decide) (by decide) (by decide)

/-- Witness for C6 at `viewStore`: the amenity exists but is unlinked. -/
theorem delete_amenity_not_linked_witness :
    delete_amenity_from_place viewStore "p1" "a1" = (viewStore, 404) :=
  delete_amenity_not_linked viewStore "p1" "a1"
    (Entity.place "p1" "Loft" "c1" "u1" []) (Entity.amenity "a1" "wifi")
    (by decide) (by decide) (by decide)

/-- A stored User as the PUT /users view sees it: the fixed fields plus
the free-form attributes `setattr` can add in file mode. -/
structure UserRec where
  uid : String
  email : String
  password : String
  created_at : Nat
  updated_at : Nat
  extra : List (String × String)
deriving DecidableEq, Repr

/-- One iteration of the update loop of `update_user` (`users.py`, lines
136-143): "password" is hashed with md5 and set; "id", "created_at",
"updated_at" and "email" are ignored; any other key is set verbatim. -/
def applyUserAttr (md5 : String → String) (u : UserRec)
    (kv : String × String) : UserRec :=
  if kv.1 == "password" then { u with password := md5 kv.2 }
  else if kv.1 == "id" || kv.1 == "created_at" || kv.1 == "updated_at"
      || kv.1 == "email" then u
  else { u with extra := (kv.1, kv.2) :: u.extra.filter (fun q => !(q.1 == kv.1)) }

/-- View `update_user` of `users.py` (PUT /users/<user_id>, lines
109-149): 404 when the id matches no User, 400 when the body is not a
JSON object or is empty, otherwise every pair of the mapping is applied
and the user saved (bumping `updated_at`). -/
def update_user (md5 : String → String) (now : Nat) (users : List UserRec)
    (user_id : String) (data : Option (List (String × String))) :
    List UserRec × Nat :=
  match users.find? (fun v => v.uid == user_id), data with
  | some u, some kvs =>
    if kvs.isEmpty then (users, 400)
    else
      let u' := { kvs.foldl (applyUserAttr md5) u with updated_at := now }
      (users.map (fun v => if v = u then u' else v), 200)
  | none, _ => (users, 404)
  | some _, none => (users, 400)

/-- Replacing the found element of a search by one still matching it
leaves the search finding the replacement. -/
theorem find_map_replace {α : Type} [DecidableEq α] (l : List α)
    (old nw : α) (pred : α → Bool)
    (hfind : l.find? pred = some old) (hnew : pred nw = true) :
    (l.map (fun v => if v = old then nw else v)).find? pred = some nw := by
  have hpold : pred old = true := List.find?_some hfind
  induction l with
  | nil => simp at hfind
  | cons x xs ih =>
    cases hpx : pred x with
    | true =>
      rw [List.find?_cons_of_pos _ hpx] at hfind
      have hxo : x = old := by
        injection hfind
      rw [List.map_cons, if_pos hxo, List.find?_cons_of_pos _ hnew]
    | false =>
      rw [List.find?_cons_of_neg _ (by simp [hpx])] at hfind
      have hxo : ¬ x = old := by
        intro hc
        rw [hc, hpold] at hpx
        exact Bool.noConfusion hpx
      rw [List.map_cons, if_neg hxo,
        List.find?_cons_of_neg _ (by simp [hpx])]
      exact ih hfind

theorem applyUserAttr_fields (md5 : String → String) (u : UserRec)
    (kv : String × String) :
    (applyUserAttr md5 u kv).email = u.email ∧
    (applyUserAttr md5 u kv).uid = u.uid ∧
    (applyUserAttr md5 u kv).created_at = u.created_at := by
  unfold applyUserAttr
  split
  · exact ⟨rfl, rfl, rfl⟩
  · split
    · exact ⟨rfl, rfl, rfl⟩
    · exact ⟨rfl, rfl, rfl⟩

theorem updateFields_preserved (md5 : String → String)
    (data : List (String × String)) :
    ∀ u : UserRec, ((data.foldl (applyUserAttr md5) u).email = u.email) ∧
      ((data.foldl (applyUserAttr md5) u).uid = u.uid) ∧
      ((data.foldl (applyUserAttr md5) u).created_at = u.created_at) := by
  induction data with
  | nil => intro u; exact ⟨rfl, rfl, rfl⟩
  | cons kv rest ih =>
    intro u
    have h1 := applyUserAttr_fields md5 u kv
    have h2 := ih (applyUserAttr md5 u kv)
    rw [List.foldl_cons]
    exact ⟨h2.1.trans h1.1, h2.2.1.trans h1.2.1, h2.2.2.trans h1.2.2⟩

/-- C9: through `update_user`, a User's email is immutable — whatever the
supplied field mapping contains (an "email" key included), the stored
user keeps its email, and its id and created_at are likewise unchanged. -/
theorem update_user_email_immutable (md5 : String → String) (now : Nat)
    (users : List UserRec) (user_id : String)
    (data : Option (List (String × String))) (u : UserRec)
    (hu : users.find? (fun v => v.uid == user_id) = some u) :
    ∃ u', (update_user md5 now users user_id data).1.find?
        (fun v => v.uid == user_id) = some u' ∧
      u'.email = u.email ∧ u'.uid = u.uid ∧ u'.created_at = u.created_at := by
  cases data with
  | none =>
    refine ⟨u, ?_, rfl, rfl, rfl⟩
    simp only [update_user, hu]
  | some kvs =>
    cases hk : kvs.isEmpty with
    | true =>
      refine ⟨u, ?_, rfl, rfl, rfl⟩
      simp only [update_user, hu, hk, if_true]
    | false =>
      have hpres := updateFields_preserved md5 kvs u
      refine ⟨{ kvs.foldl (applyUserAttr md5) u with updated_at := now },
        ?_, hpres.1, hpres.2.1, hpres.2.2⟩
      simp only [update_user, hu, hk, Bool.false_eq_true, if_false]
      apply find_map_replace users u _ _ hu
      show ((kvs.foldl (applyUserAttr md5) u).uid == user_id) = true
      rw [hpres.2.1]
      have hps := List.find?_some hu
      exact hps

/-- Witness for C9: an update that tries to overwrite the email, renames
the user and changes the password leaves email, id and created_at
untouched. -/
theorem update_user_email_immutable_witness :
    ∃ u', (update_user (fun s => s) 9
        [⟨"u1", "a@b.c", "pw", 5, 5, []⟩] "u1"
        (some [("email", "evil@x"), ("name", "Bob"), ("password", "s3")])).1.find?
        (fun v => v.uid == "u1") = some u' ∧
      u'.email = (⟨"u1", "a@b.c", "pw", 5, 5, []⟩ : UserRec).email ∧
      u'.uid = (⟨"u1", "a@b.c", "pw", 5, 5, []⟩ : UserRec).uid ∧
      u'.created_at = (⟨"u1", "a@b.c", "pw", 5, 5, []⟩ : UserRec).created_at :=
  update_user_email_immutable (fun s => s) 9
    [⟨"u1", "a@b.c", "pw", 5, 5, []⟩] "u1"
    (some [("email", "evil@x"), ("name", "Bob"), ("password", "s3")])
    ⟨"u1", "a@b.c", "pw", 5, 5, []⟩ (by decide)

/-- The three optional keys of the search request body (`places.py`
docstring: states, cities, amenities). -/
structure SearchBody where
  states : Option (List String)
  cities : Option (List String)
  amenities : Option (List String)
deriving DecidableEq, Repr

/-- Python truthiness of `data.get(key)` for an optional list: false when
the key is absent or the list is empty. -/
def truthy : Option (List String) → Bool
  | none => false
  | some l => !l.isEmpty

/-- Modelled from the spec: `State.cities` in file mode scans the stored
City entities and keeps those whose `state_id` equals the state's id
(§4.2 relationship traversal; `models/state.py` is not under `src/`). -/
def stateCities (fs : FileStorage) (s : Entity) : List Entity :=
  ((FileStorage.all fs (some .city)).map Prod.snd).filter
    (fun c => c.stateId == s.eid)

/-- Outcome of POST /places_search: a handled 400, a 200 with the Place
list, or an unhandled exception escaping the view. -/
inductive SearchOutcome where
  | badRequest
  | ok (places : List Entity)
  | nameError
deriving DecidableEq, Repr

/-- View `search_place` of `places.py` (POST /places_search, lines
172-251).  A body that is not valid JSON yields 400.  The local
`state_ids` is assigned only inside the `if data.get("states")` branch
(line 218); the cities branch (line 233) evaluates
`city.state_id not in state_ids` for every listed City that exists, which
raises `NameError` when `state_ids` was never assigned — modelled as
`SearchOutcome.nameError`.  The amenities key then filters the collected
Places to those carrying every listed amenity id. -/
def search_place (fs : FileStorage) (body : Option SearchBody) :
    SearchOutcome :=
  match body with
  | none => .badRequest
  | some d =>
    let places0 :=
      if !truthy d.states && !truthy d.cities then
        (FileStorage.all fs (some .place)).map Prod.snd
      else []
    let stateIds : Option (List String) :=
      if truthy d.states then some (d.states.getD []) else none
    let places1 := places0 ++
      (if truthy d.states then
        (d.states.getD []).foldl (fun acc sid =>
          match FileStorage.get fs .state sid with
          | some s => acc ++ (stateCities fs s).foldl
              (fun acc2 c => acc2 ++ cityPlaces fs c) []
          | none => acc) []
      else [])
    let citiesStep : Except Unit (List Entity) :=
      if truthy d.cities then
        (d.cities.getD []).foldlM (fun acc cid =>
          match FileStorage.get fs .city cid with
          | some c =>
            match stateIds with
            | none => Except.error ()
            | some sids =>
              if !(sids.contains c.stateId) then
                Except.ok (acc ++ cityPlaces fs c)
              else Except.ok acc
          | none => Except.ok acc) places1
      else Except.ok places1
    match citiesStep with
    | Except.error _ => .nameError
    | Except.ok places2 =>
      if truthy d.amenities then
        .ok (places2.filter (fun pl =>
          (d.amenities.getD []).all (fun aid => pl.amenityIds.contains aid)))
      else .ok places2

/-- C10: the place-search operation is NOT total over valid JSON bodies.
With one existing City `c1` owning one Place, the body
`{"cities": ["c1"]}` (no `states` key) and the body
`{"states": [], "cities": ["c1"]}` both make the view read the unbound
local `state_ids`, raising an unhandled `NameError` instead of returning
the City's Places as its own docstring promises. -/
theorem search_place_raises_name_error :
    search_place
      ⟨[("City.c1", Entity.city "c1" "SF" "s1"),
        ("Place.p1", Entity.place "p1" "Loft" "c1" "u1" [])], none⟩
      (some ⟨none, some ["c1"], none⟩) = SearchOutcome.nameError ∧
    search_place
      ⟨[("City.c1", Entity.city "c1" "SF" "s1"),
        ("Place.p1", Entity.place "p1" "Loft" "c1" "u1" [])], none⟩
      (some ⟨some [], some ["c1"], none⟩) = SearchOutcome.nameError := by
  constructor <;> rfl

end HBnB
